import Mathlib

/-!
Verification development for the mail-automation server.

The definitions below are a shallow embedding of the TypeScript sources:

* `src/server/types/index.ts` — the `Email` record, the `EmailCategory`
  closed set, `analyzeEmail` (OpenRouter enrichment client) and
  `generateEmailReply` (reply drafting);
* `src/server/services/emailService.ts` — IMAP message parsing: stable
  identity derivation and receipt-date resolution;
* `src/server/routes/emails.ts` — the memo cache, the batch orchestrator
  (groups of 2 driven through the enrichment client) and the three
  retrieval endpoints (base fetch, progressive paging, delta refresh).

Conventions.  JavaScript strings are modelled by `String`, with the JS
string operations re-implemented structurally over `List Char` so that
they compute by kernel reduction (`jsSplitOn`, `jsTrim`, `jsIncludes`,
`jsStartsWith`).  JS `Date` values are modelled by their epoch value as
`Int`; a possibly-Invalid `Date` is `Option Int` (`none` = Invalid Date)
and a possibly-absent date is `Option (Option Int)`.  The external JSON
parser (`JSON.parse`) and the enrichment provider are outside the
repository and are passed in as explicit parameters (`jsonParse`, the
`FetchResult` behaviour, the per-message analysis oracle `an`).
Fallible TS code (`try`/`throw`) is modelled with `Except`.
-/

namespace Mailauto

/-! ### JS string primitives, modelled structurally over `List Char` -/

/-- Splits a character list at every non-overlapping occurrence of the
separator `sep`, scanning left to right — the semantics of JS
`String.prototype.split` with a non-empty string separator.  The fuel
argument only serves structural recursion; `fuel ≥ cs.length` is enough
for it never to run out. -/
def splitChars (sep : List Char) : Nat → List Char → List (List Char)
  | _, [] => [[]]
  | 0, cs => [cs]
  | fuel+1, c :: cs =>
    if sep.isPrefixOf (c :: cs) then
      [] :: splitChars sep fuel ((c :: cs).drop sep.length)
    else
      match splitChars sep fuel cs with
      | [] => [[c]]
      | h :: t => (c :: h) :: t

/-- JS `s.split(sep)` for a non-empty string separator. -/
def jsSplitOn (s sep : String) : List String :=
  (splitChars sep.data s.data.length s.data).map String.mk

/-- Whitespace trimming on a character list, both ends. -/
def trimChars (cs : List Char) : List Char :=
  ((cs.dropWhile Char.isWhitespace).reverse.dropWhile Char.isWhitespace).reverse

/-- JS `s.trim()`. -/
def jsTrim (s : String) : String := String.mk (trimChars s.data)

/-- Does `pat` occur as a contiguous subsequence of `cs`? -/
def containsSeq (pat : List Char) : List Char → Bool
  | [] => pat.isEmpty
  | c :: cs => pat.isPrefixOf (c :: cs) || containsSeq pat cs

/-- JS `s.includes(sub)`. -/
def jsIncludes (s sub : String) : Bool := containsSeq sub.data s.data

/-- JS `s.startsWith(p)`. -/
def jsStartsWith (s p : String) : Bool := p.data.isPrefixOf s.data

/-- JS `s.substring(0, n)`. -/
def jsTake (s : String) (n : Nat) : String := String.mk (s.data.take n)

/-- JS `a || b` for a possibly-absent string: `b` is used when `a` is
`undefined` or the empty string (both falsy). -/
def jsOrStr (a : Option String) (b : String) : String :=
  match a with
  | some s => if s = "" then b else s
  | none => b

/-! ### Data model (`src/server/types/index.ts`)

The TS `EmailCategory` union type is a compile-time annotation only; at
runtime the category arriving from the provider is an arbitrary string,
which `analyzeEmail` coerces into the closed set.  The model therefore
keeps `category` as `String` and carries the closed set explicitly as
`validCategories` (the `validCategories` array of `analyzeEmail`). -/

/-- Result of `analyzeEmail`: the TS `AIResponse` shape. -/
structure AIResponse where
  category : String
  summary : String
  events : List String
deriving DecidableEq

/-- The fixed closed category set (`validCategories` in `analyzeEmail`,
mirroring the `EmailCategory` union type). -/
def validCategories : List String :=
  ["Important-Academics", "Important-Deadline", "Event", "General"]

/-- The TS `Email` record.  `date` is the epoch value of the `Date`;
the three optional enrichment fields are `none` on a freshly parsed
message and set by the batch orchestrator. -/
structure Email where
  id : String
  sender : String
  subject : String
  body : String
  date : Int
  category : Option String
  summary : Option String
  extractedEvents : Option (List String)
deriving DecidableEq

/-- The enrichment-independent part of an `Email`: the same record with
the three enrichment fields cleared.  Two emails with the same `core`
are the same underlying message. -/
def Email.core (e : Email) : Email :=
  ⟨e.id, e.sender, e.subject, e.body, e.date, none, none, none⟩

/-! ### Enrichment client (`analyzeEmail` in `src/server/types/index.ts`) -/

/-- The JSON object recovered by `JSON.parse` from the provider text, as
far as `analyzeEmail` inspects it: the three fields may each be absent. -/
structure ParsedObj where
  category : Option String
  summary : Option String
  events : Option (List String)
deriving DecidableEq

/-- Post-parse validation of `analyzeEmail` (lines 337–354): a category
outside `validCategories` (including a missing one) is coerced to
`"General"`; a missing (or empty, JS falsy) summary becomes the fixed
placeholder; missing events default to `[]`. -/
def validateParsed (p : ParsedObj) : AIResponse :=
  let cat :=
    match p.category with
    | some c => if validCategories.contains c then c else "General"
    | none => "General"
  let summary :=
    match p.summary with
    | some s => if s = "" then "No summary available" else s
    | none => "No summary available"
  ⟨cat, summary, p.events.getD []⟩

/-- The match of the JS regex applied by `analyzeEmail` to locate a JSON
object: the regex is greedy, so the match (when it exists) runs from the
first opening brace to the last closing brace of the text, and exists
exactly when some closing brace occurs after the first opening brace. -/
def braceSpan (t : String) : Option String :=
  let cs := t.data
  match cs.findIdx? (· == '\x7b'), cs.reverse.findIdx? (· == '\x7d') with
  | some i, some jr =>
    let j := cs.length - 1 - jr
    if i < j then some (String.mk ((cs.drop i).take (j - i + 1))) else none
  | _, _ => none

/-- JSON extraction of `analyzeEmail` (lines 312–326): trim, strip a
```json fenced block if present, else a bare ``` fenced block if
present; then — in every branch — replace the text by the greedy brace
span if one matches. -/
def extractJsonText (content : String) : String :=
  let t0 := jsTrim content
  let t1 :=
    if jsIncludes t0 "```json" then
      jsTrim ((jsSplitOn ((jsSplitOn t0 "```json").getD 1 "") "```").headD "")
    else if jsIncludes t0 "```" then
      jsTrim ((jsSplitOn ((jsSplitOn t0 "```").getD 1 "") "```").headD "")
    else t0
  match braceSpan t1 with
  | some m => m
  | none => t1

/-- One element of the provider response `choices` array:
`choices[i].message?.content` may be absent. -/
structure Choice where
  content : Option String
deriving DecidableEq

/-- The JSON body of the provider HTTP response. `badJson` models a body
that `response.json()` fails on; `payload` carries the optional `error`
object (outer `Option`: object present, inner: its `message` field) and
the optional `choices` array. -/
inductive RespBody where
  | badJson : RespBody
  | payload : Option (Option String) → Option (List Choice) → RespBody
deriving DecidableEq

/-- Behaviour of the outbound `fetch` to the enrichment provider:
a network failure (the promise rejects) or a response with an HTTP
status and a body. -/
inductive FetchResult where
  | netFail : FetchResult
  | resp : Nat → RespBody → FetchResult
deriving DecidableEq

/-- The default result `analyzeEmail` returns from its `catch` block. -/
def defaultAnalysis : AIResponse :=
  ⟨"General", "Unable to analyze email content.", []⟩

/-- The `try` block of `analyzeEmail` (lines 192–357): every `throw` is
an `Except.error`.  `jsonParse` is the external `JSON.parse` (`none`
models a parse exception), `apiKey` the `OPENROUTER_API` variable, `r`
the provider behaviour.  Input truncation (body 4000 / subject 200)
only shapes the outbound prompt and is not observable in the result. -/
def analyzeEmailE (jsonParse : String → Option ParsedObj) (apiKey : Option String)
    (subject body : String) (r : FetchResult) : Except String AIResponse :=
  if subject = "" ∧ body = "" then
    Except.ok ⟨"General", "No email content to analyze.", []⟩
  else
    match apiKey with
    | none => Except.error "OPENROUTER_API is not set in environment variables"
    | some _ =>
      match r with
      | FetchResult.netFail => Except.error "fetch failed"
      | FetchResult.resp status rb =>
        if status < 200 ∨ 299 < status then
          if status = 401 ∨ status = 403 then
            Except.error "OpenRouter API authentication failed. Please check your OPENROUTER_API."
          else
            Except.error "OpenRouter API error (non-success status)"
        else
          match rb with
          | RespBody.badJson => Except.error "response body could not be parsed as JSON"
          | RespBody.payload err choices =>
            match err with
            | some m => Except.error ("OpenRouter API error: " ++ m.getD "Unknown error")
            | none =>
              match choices with
              | none => Except.error "OpenRouter API returned no choices"
              | some [] => Except.error "OpenRouter API returned no choices"
              | some (ch :: _) =>
                match ch.content with
                | none => Except.error "OpenRouter API returned empty response"
                | some content =>
                  if jsTrim content = "" then
                    Except.error "OpenRouter API returned empty response"
                  else
                    match jsonParse (extractJsonText content) with
                    | none => Except.error "Failed to parse OpenRouter response as JSON"
                    | some parsed => Except.ok (validateParsed parsed)

/-- `analyzeEmail` proper: the `try` block with its `catch` (lines
358–372), which converts any failure into `defaultAnalysis`. -/
def analyzeEmail (jsonParse : String → Option ParsedObj) (apiKey : Option String)
    (subject body : String) (r : FetchResult) : AIResponse :=
  match analyzeEmailE jsonParse apiKey subject body r with
  | Except.ok a => a
  | Except.error _ => defaultAnalysis

/-- The reply-subject computation of `generateEmailReply` (lines
171–181): prepend `"Re: "` unless the original subject already starts
with `"Re:"`. -/
def replySubjectOf (originalSubject : String) : String :=
  if jsStartsWith originalSubject "Re:" then originalSubject
  else "Re: " ++ originalSubject

/-! ### Message parsing (`fetchEmailDetails` in
`src/server/services/emailService.ts`) -/

/-- Receipt-date resolution (lines 160–174):
`imapDate || parsed.date || new Date()` followed by the `isNaN`
validation.  A `Date` object — even an Invalid one — is truthy in JS, so
a present-but-Invalid `imapDate` (`some none`) is selected and then
falls to `now` through the `isNaN` check. -/
def resolveDate (imapDate : Option (Option Int)) (parsedDate : Option (Option Int))
    (now : Int) : Int :=
  let finalDate : Option Int :=
    match imapDate with
    | some d => d
    | none =>
      match parsedDate with
      | some d => d
      | none => some now
  match finalDate with
  | some t => t
  | none => now

/-- JS `x?.substring(0, 20) || alt`: absent or empty gives `alt`. -/
def substrOr (s : Option String) (n : Nat) (alt : String) : String :=
  match s with
  | none => alt
  | some t =>
    let u := jsTake t n
    if u = "" then alt else u

/-- The sanitisation `.replace(/[^a-zA-Z0-9-]/g, '-')` applied to the
derived identity template. -/
def sanitizeIdChars (s : String) : String :=
  String.mk (s.data.map fun ch => if ch.isAlphanum || ch == '-' then ch else '-')

/-- Identity derivation (line 179): the protocol-native `messageId` if
present, else the sanitised composite of sequence number, truncated
subject, epoch receipt date and truncated sender. -/
def deriveEmailId (messageId : Option String) (seqno : Nat)
    (subject : Option String) (fromText : Option String) (dateMs : Int) : String :=
  match messageId with
  | some m => m
  | none =>
    sanitizeIdChars ("email-" ++ toString seqno ++ "-" ++ substrOr subject 20 "no-subject"
      ++ "-" ++ toString dateMs ++ "-" ++ substrOr fromText 20 "no-sender")

/-- The fields `mailparser`'s `simpleParser` delivers for one raw
message, as far as `fetchEmailDetails` reads them. -/
structure ParsedMailModel where
  messageId : Option String
  subject : Option String
  fromText : Option String
  text : Option String
  html : Option String
  date : Option (Option Int)
deriving DecidableEq

/-- Assembly of one `Email` from a parsed message (lines 156–185):
date resolution, identity derivation, and the sender/subject/body
defaults.  `now` is the wall-clock instant of this parse. -/
def buildParsedEmail (seqno : Nat) (imapDate : Option (Option Int))
    (p : ParsedMailModel) (now : Int) : Email :=
  let finalDate := resolveDate imapDate p.date now
  ⟨deriveEmailId p.messageId seqno p.subject p.fromText finalDate,
   jsOrStr p.fromText "Unknown Sender",
   jsOrStr p.subject "(No Subject)",
   jsOrStr p.text (jsOrStr p.html ""),
   finalDate, none, none, none⟩

/-! ### Memo cache and batch orchestrator (`src/server/routes/emails.ts`)

`emailSummaryCache` is a JS `Map` observed only through `has`, `get` and
`set`; it is modelled by an association list looked up front-to-back, so
`cacheSet` prepends a binding, which shadows (overwrites) any earlier
binding for the same identity — the observable semantics of `Map.set`. -/

/-- A memo-cache value: `category`, `summary`, `extractedEvents`. -/
structure CacheEntry where
  category : String
  summary : String
  extractedEvents : List String
deriving DecidableEq

/-- The process-wide `emailSummaryCache`. -/
abbrev Cache := List (String × CacheEntry)

/-- `emailSummaryCache.get(id)`. -/
def cacheGet (c : Cache) (id : String) : Option CacheEntry :=
  (c.find? fun p => p.1 == id).map fun p => p.2

/-- `emailSummaryCache.has(id)`. -/
def cacheHas (c : Cache) (id : String) : Bool := (cacheGet c id).isSome

/-- `emailSummaryCache.set(id, v)`. -/
def cacheSet (c : Cache) (id : String) (v : CacheEntry) : Cache := (id, v) :: c

/-- Enrichment of one message inside a batch (the `batch.map(async …)`
task body, e.g. lines 51–101): on a cache hit the cached entry is
spread onto the message; on a miss the analysis oracle `an` (the result
of `analyzeEmail` for this message in this request) is consulted and
the result cached.  The route code checks `has` then reads with `get!`;
the model fuses the two into one `cacheGet` match. -/
def enrichOne (an : Email → AIResponse) (c : Cache) (e : Email) : Email × Cache :=
  match cacheGet c e.id with
  | some cached =>
    (⟨e.id, e.sender, e.subject, e.body, e.date,
      some cached.category, some cached.summary, some cached.extractedEvents⟩, c)
  | none =>
    let a := an e
    (⟨e.id, e.sender, e.subject, e.body, e.date,
      some a.category, some a.summary, some a.events⟩,
     cacheSet c e.id ⟨a.category, a.summary, a.events⟩)

/-- The batch loop `for (i = 0; i < list.length; i += 2) Promise.all(…)`
shared by all three endpoints (the progressive endpoint applies it to
its 4-message slice).  The per-task results are returned in slice
order, as `Promise.all` does; the cache accesses of the two concurrent
tasks of a group are modelled in left-to-right order — the step
relation `GroupStep` below models the other interleavings, which differ
only in cache effects for duplicated identities. -/
def processInPairs (an : Email → AIResponse) : Cache → List Email → List Email × Cache
  | c, [] => ([], c)
  | c, [e] =>
    let r := enrichOne an c e
    ([r.1], r.2)
  | c, e1 :: e2 :: rest =>
    let r1 := enrichOne an c e1
    let r2 := enrichOne an r1.2 e2
    let rr := processInPairs an r2.2 rest
    (r1.1 :: r2.1 :: rr.1, rr.2)

/-- The comparator `(a, b) => a.date.getTime() - b.date.getTime()` as a
relation. -/
def dateLe (a b : Email) : Prop := a.date ≤ b.date

instance : DecidableRel dateLe := fun a b => inferInstanceAs (Decidable (a.date ≤ b.date))

instance : IsTotal Email dateLe := ⟨fun a b => Int.le_total a.date b.date⟩

instance : IsTrans Email dateLe := ⟨fun _ _ _ h1 h2 => le_trans h1 h2⟩

/-- `list.sort((a, b) => a.date.getTime() - b.date.getTime())`: any
comparator-correct sort; only sortedness and the permutation property
are observable in the claims. -/
def sortByDate (l : List Email) : List Email := List.insertionSort dateLe l

/-- Sorted non-decreasing by receipt timestamp. -/
def SortedByDate (l : List Email) : Prop := List.Sorted dateLe l

/-! ### Retrieval endpoints (`src/server/routes/emails.ts`) -/

/-- Response shape of `GET /` and `POST /fetch` (identical handlers). -/
structure GetResponse where
  success : Bool
  emails : List Email
  count : Nat
deriving DecidableEq

/-- The base-fetch handler body after `fetchUserEmails` returned
`rawEmails` (lines 29–117 and 399–487): empty short-circuit, pair-wise
enrichment, chronological sort. -/
def getEmailsResponse (an : Email → AIResponse) (c : Cache) (rawEmails : List Email) :
    GetResponse × Cache :=
  if rawEmails.length = 0 then (⟨true, [], 0⟩, c)
  else
    let pr := processInPairs an c rawEmails
    let processedEmails := sortByDate pr.1
    (⟨true, processedEmails, processedEmails.length⟩, pr.2)

/-- Response shape of `POST /fetch-new`.  `newestDate` is the epoch of
the last returned email, else the request's `sinceDate` passed through;
the wall-clock `timestamp` debug field is omitted. -/
structure NewResponse where
  success : Bool
  emails : List Email
  count : Nat
  newestDate : Option Int
deriving DecidableEq

/-- The new-message set of the delta-refresh endpoint (lines 149–168):
by known identities when any were supplied, else by strict date
comparison when `sinceDate` was supplied, else the whole window. -/
def computeNewEmails (rawEmails : List Email) (sinceDate : Option Int)
    (knownEmailIds : List String) : List Email :=
  if knownEmailIds.length > 0 then
    rawEmails.filter fun e => !(knownEmailIds.contains e.id)
  else
    match sinceDate with
    | some since => rawEmails.filter fun e => since < e.date
    | none => rawEmails

/-- The delta-refresh handler body after `fetchUserEmails` returned
`rawEmails` (lines 149–253): filter, sort, pair-wise enrichment of the
new messages only, sort again, respond. -/
def fetchNewEmails (an : Email → AIResponse) (c : Cache) (rawEmails : List Email)
    (sinceDate : Option Int) (knownEmailIds : List String) : NewResponse × Cache :=
  let newEmails := sortByDate (computeNewEmails rawEmails sinceDate knownEmailIds)
  let pr := processInPairs an c newEmails
  let processedEmails := sortByDate pr.1
  let newestDate :=
    match processedEmails.getLast? with
    | some e => some e.date
    | none => sinceDate
  (⟨true, processedEmails, processedEmails.length, newestDate⟩, pr.2)

/-- Response shape of `POST /fetch-progressive`.  The two early-exit
complete responses carry no `batchNumber` field (`none`). -/
structure ProgResponse where
  success : Bool
  emails : List Email
  count : Nat
  batchNumber : Option Nat
  isComplete : Bool
  totalFetched : Nat
  totalExpected : Nat
deriving DecidableEq

/-- The progressive-paging handler body after `fetchUserEmails` returned
`rawEmails` (lines 271–386): cap the window at 40, slice
`[batchNumber*4, batchNumber*4+4)`, early-exit when empty or beyond the
window, else enrich the slice two at a time, sort, and report
`isComplete = startIndex + batch.length >= limitedEmails.length` and
`batchNumber + 1`. -/
def fetchProgressive (an : Email → AIResponse) (c : Cache) (rawEmails : List Email)
    (batchNumber : Nat) : ProgResponse × Cache :=
  let startIndex := batchNumber * 4
  let limitedEmails := rawEmails.take 40
  if limitedEmails.length = 0 then
    (⟨true, [], 0, none, true, 0, 0⟩, c)
  else if startIndex ≥ limitedEmails.length then
    (⟨true, [], 0, none, true, limitedEmails.length, limitedEmails.length⟩, c)
  else
    let batch := (limitedEmails.drop startIndex).take 4
    let pr := processInPairs an c batch
    let processedEmails := sortByDate pr.1
    (⟨true, processedEmails, processedEmails.length, some (batchNumber + 1),
      decide (startIndex + batch.length ≥ limitedEmails.length),
      startIndex + processedEmails.length, limitedEmails.length⟩, pr.2)

/-! ### Interleaving model of concurrent enrichment within a group

Each task of a `Promise.all` group performs two atomic cache actions
separated by the awaited provider call: the `has` check, and (on a
miss) the `set` of the value `v` its own `analyzeEmail` call will
produce.  The host runtime interleaves these actions of the group's
tasks in any order; `GroupStep` is that small-step semantics. -/

/-- State of one task: before its cache check, after a miss (holding
the value it will write), or finished. -/
inductive TaskState where
  | ready : String → CacheEntry → TaskState
  | pendingWrite : String → CacheEntry → TaskState
  | finished : TaskState
deriving DecidableEq

/-- Cache plus the task pool of the currently running group. -/
abbrev GroupState := Cache × List TaskState

/-- One atomic step of the group: a task observes a hit (uses the
cached entry, writes nothing), observes a miss, or performs the write
it became committed to at its miss. -/
inductive GroupStep : GroupState → GroupState → Prop where
  | checkHit (c : Cache) (ts : List TaskState) (i : Nat) (id : String) (v : CacheEntry) :
      ts[i]? = some (TaskState.ready id v) → cacheHas c id = true →
      GroupStep (c, ts) (c, ts.set i TaskState.finished)
  | checkMiss (c : Cache) (ts : List TaskState) (i : Nat) (id : String) (v : CacheEntry) :
      ts[i]? = some (TaskState.ready id v) → cacheHas c id = false →
      GroupStep (c, ts) (c, ts.set i (TaskState.pendingWrite id v))
  | doWrite (c : Cache) (ts : List TaskState) (i : Nat) (id : String) (v : CacheEntry) :
      ts[i]? = some (TaskState.pendingWrite id v) →
      GroupStep (c, ts) (cacheSet c id v, ts.set i TaskState.finished)

/-- Reachability under group interleavings. -/
def Reaches : GroupState → GroupState → Prop := Relation.ReflTransGen GroupStep

/-! ### Concrete inputs used by witnesses and counterexamples -/

/-- A raw (unenriched) message with identity `toString i` and date `i`. -/
def mkMail (i : Nat) : Email :=
  ⟨toString i, "sender", "subject", "body", Int.ofNat i, none, none, none⟩

/-- A 40-message mailbox window with pairwise distinct identities. -/
def mailbox40 : List Email := (List.range 40).map mkMail

/-- A successful enrichment value. -/
def entryA : CacheEntry := ⟨"Event", "Seminar on Friday.", ["Seminar – Nov 3 | event"]⟩

/-- The degenerate failure enrichment value. -/
def entryB : CacheEntry := ⟨"General", "Unable to analyze email content.", []⟩

/-- A parsed message with no protocol-native identifier and no date of
any kind. -/
def pmNoDates : ParsedMailModel :=
  ⟨none, some "Hello", some "alice@example.com", some "body text", none, none⟩

/-! ## Theorems -/

/-- Every result the validation step produces carries a category from
the closed set. -/
lemma validate_contains (p : ParsedObj) :
    validCategories.contains (validateParsed p).category = true := by
  show validCategories.contains
      (match p.category with
        | some c => if validCategories.contains c then c else "General"
        | none => "General") = true
  cases hc : p.category with
  | none => rfl
  | some c =>
    by_cases h : validCategories.contains c = true
    · simp only [hc]
      rw [if_pos h]
      exact h
    · simp only [hc]
      rw [if_neg h]
      rfl

/-- Every successful run of the `try` block of `analyzeEmail` yields a
category from the closed set. -/
lemma analyzeEmailE_ok (jsonParse : String → Option ParsedObj) (apiKey : Option String)
    (subject body : String) (r : FetchResult) (a : AIResponse)
    (h : analyzeEmailE jsonParse apiKey subject body r = Except.ok a) :
    validCategories.contains a.category = true := by
  unfold analyzeEmailE at h
  repeat' split at h
  all_goals cases h
  all_goals first
    | rfl
    | exact validate_contains _

/-- C1: `analyze` never raises past its boundary: for every input and
every provider behaviour (network failure, non-success status, missing
or empty or malformed payload) it returns a well-formed result whose
category lies in the fixed closed set, and every failure path yields
exactly the degenerate default result. -/
theorem analyze_total_default (jsonParse : String → Option ParsedObj) (apiKey : Option String)
    (subject body : String) (r : FetchResult) :
    validCategories.contains (analyzeEmail jsonParse apiKey subject body r).category = true ∧
    (∀ e, analyzeEmailE jsonParse apiKey subject body r = Except.error e →
      analyzeEmail jsonParse apiKey subject body r = defaultAnalysis) := by
  constructor
  · unfold analyzeEmail
    cases h : analyzeEmailE jsonParse apiKey subject body r with
    | ok a => exact analyzeEmailE_ok jsonParse apiKey subject body r a h
    | error e => rfl
  · intro e he
    unfold analyzeEmail
    rw [he]

/-- Witness for C1 at a concrete failing behaviour: a network failure
produces exactly the degenerate default result. -/
theorem analyze_total_default_witness :
    validCategories.contains
      (analyzeEmail (fun _ => none) (some "key") "Subject" "" FetchResult.netFail).category = true ∧
    analyzeEmail (fun _ => none) (some "key") "Subject" "" FetchResult.netFail = defaultAnalysis :=
  ⟨(analyze_total_default (fun _ => none) (some "key") "Subject" "" FetchResult.netFail).1,
   (analyze_total_default (fun _ => none) (some "key") "Subject" "" FetchResult.netFail).2
     "fetch failed" rfl⟩

/-- C9: receipt-date resolution priority: server-reported internal date
first, then header-embedded date, then the current wall-clock time; an
Invalid selected date also falls back to the current time; the date
stored on the parsed message is exactly this resolved value. -/
theorem resolve_date_priority (d now : Int) (pd : Option (Option Int)) (seqno : Nat)
    (p : ParsedMailModel) (i : Option (Option Int)) :
    resolveDate (some (some d)) pd now = d ∧
    resolveDate none (some (some d)) now = d ∧
    resolveDate none none now = now ∧
    resolveDate (some none) pd now = now ∧
    resolveDate none (some none) now = now ∧
    (buildParsedEmail seqno i p now).date = resolveDate i p.date now :=
  ⟨rfl, rfl, rfl, rfl, rfl, rfl⟩

/-- C8: post-parse validation: a missing category, or one outside the
closed set, is coerced to the default category; a missing summary is
replaced with the fixed placeholder; missing events default to the
empty list. -/
theorem validate_coerces_defaults (p : ParsedObj) :
    (p.category = none → (validateParsed p).category = "General") ∧
    (∀ c, p.category = some c → validCategories.contains c = false →
      (validateParsed p).category = "General") ∧
    (p.summary = none → (validateParsed p).summary = "No summary available") ∧
    (p.events = none → (validateParsed p).events = []) := by
  refine ⟨fun h => ?_, fun c hc hv => ?_, fun h => ?_, fun h => ?_⟩
  · simp [validateParsed, h]
  · have hm : c ∉ validCategories := by simpa using hv
    simp [validateParsed, hc, hm]
  · simp [validateParsed, h]
  · simp [validateParsed, h]

/-- Witness for C8 at the provider category `"Urgent"`, which is not in
the closed set. -/
theorem validate_coerces_defaults_witness :
    (ParsedObj.mk (some "Urgent") none none).category = some "Urgent" ∧
    validCategories.contains "Urgent" = false ∧
    (validateParsed ⟨some "Urgent", none, none⟩).category = "General" ∧
    (validateParsed ⟨some "Urgent", none, none⟩).summary = "No summary available" ∧
    (validateParsed ⟨some "Urgent", none, none⟩).events = [] :=
  ⟨rfl, rfl, (validate_coerces_defaults _).2.1 "Urgent" rfl rfl,
   (validate_coerces_defaults _).2.2.1 rfl, (validate_coerces_defaults _).2.2.2 rfl⟩

/-- C10: the reply subject is the original when it already starts with
`"Re:"`, else `"Re: "` prepended; hence the transform is idempotent. -/
theorem reply_subject_idempotent (s : String) :
    (jsStartsWith s "Re:" = true → replySubjectOf s = s) ∧
    (jsStartsWith s "Re:" = false → replySubjectOf s = "Re: " ++ s) ∧
    replySubjectOf (replySubjectOf s) = replySubjectOf s := by
  have hpre : jsStartsWith ("Re: " ++ s) "Re:" = true := rfl
  refine ⟨fun h => ?_, fun h => ?_, ?_⟩
  · simp [replySubjectOf, h]
  · simp [replySubjectOf, h]
  · cases h : jsStartsWith s "Re:" with
    | true => simp [replySubjectOf, h]
    | false => simp [replySubjectOf, h, hpre]

/-- Witness for C10 at a subject without the prefix. -/
theorem reply_subject_idempotent_witness :
    jsStartsWith "Hello" "Re:" = false ∧ replySubjectOf "Hello" = "Re: " ++ "Hello" :=
  ⟨rfl, (reply_subject_idempotent "Hello").2.1 rfl⟩

/-- Counterexample to C6 as stated: with no server-internal date and no
header date, the wall-clock fallback enters the derived identity, so
two parses of byte-identical input at different instants produce
different identities. -/
theorem derived_identity_wallclock_cex :
    (buildParsedEmail 1 none pmNoDates 0).id ≠ (buildParsedEmail 1 none pmNoDates 60000).id := by
  decide

/-- C6 (amended): identity derivation is deterministic whenever the
resolved receipt timestamp comes from the server-internal date or from
a valid header date; only the wall-clock fallback (both dates absent or
the selected one Invalid) breaks stability across repeated parses. -/
theorem derived_identity_deterministic (seqno : Nat) (imapDate : Option (Option Int))
    (p : ParsedMailModel) (now now2 : Int)
    (h : (∃ t, imapDate = some (some t)) ∨ (imapDate = none ∧ ∃ t, p.date = some (some t))) :
    buildParsedEmail seqno imapDate p now = buildParsedEmail seqno imapDate p now2 := by
  rcases h with ⟨t, rfl⟩ | ⟨rfl, t, hp⟩
  · rfl
  · simp [buildParsedEmail, resolveDate, hp]

/-- Witness for C6 (amended) at a message carrying a server date. -/
theorem derived_identity_deterministic_witness :
    buildParsedEmail 7 (some (some 5)) pmNoDates 0 = buildParsedEmail 7 (some (some 5)) pmNoDates 999 :=
  derived_identity_deterministic 7 (some (some 5)) pmNoDates 0 999 (Or.inl ⟨5, rfl⟩)

/-- Counterexample to C7 as stated: when a ```json fenced block is
present the claim says the parsed text is that block's contents, but
the code additionally applies the greedy brace regex to it — here the
block's contents are `note: {1}` while the selected span is `{1}`. -/
theorem extract_fenced_block_cex :
    extractJsonText "```json\nnote: \x7b1\x7d\n```" = "\x7b1\x7d" ∧
    jsTrim ((jsSplitOn ((jsSplitOn (jsTrim "```json\nnote: \x7b1\x7d\n```") "```json").getD 1 "")
      "```").headD "") = "note: \x7b1\x7d" ∧
    ("\x7b1\x7d" : String) ≠ "note: \x7b1\x7d" :=
  ⟨by decide, by decide, by decide⟩

/-- C7 (amended): the extraction strips a ```json fenced block if
present, else a bare fenced block if present; then, in every branch —
not only the no-fence branch — it replaces the text by the greedy
brace span (first opening brace through last closing brace) when one
matches, and parses the selected span. -/
theorem extract_policy_with_regex (content : String) :
    (jsIncludes (jsTrim content) "```json" = true →
      extractJsonText content =
        (braceSpan (jsTrim ((jsSplitOn ((jsSplitOn (jsTrim content) "```json").getD 1 "")
            "```").headD ""))).getD
          (jsTrim ((jsSplitOn ((jsSplitOn (jsTrim content) "```json").getD 1 "") "```").headD ""))) ∧
    (jsIncludes (jsTrim content) "```json" = false → jsIncludes (jsTrim content) "```" = true →
      extractJsonText content =
        (braceSpan (jsTrim ((jsSplitOn ((jsSplitOn (jsTrim content) "```").getD 1 "")
            "```").headD ""))).getD
          (jsTrim ((jsSplitOn ((jsSplitOn (jsTrim content) "```").getD 1 "") "```").headD ""))) ∧
    (jsIncludes (jsTrim content) "```json" = false → jsIncludes (jsTrim content) "```" = false →
      extractJsonText content = (braceSpan (jsTrim content)).getD (jsTrim content)) := by
  refine ⟨fun h1 => ?_, fun h1 h2 => ?_, fun h1 h2 => ?_⟩
  · unfold extractJsonText
    simp only [h1, if_true]
    cases braceSpan (jsTrim ((jsSplitOn ((jsSplitOn (jsTrim content) "```json").getD 1 "")
        "```").headD "")) <;> rfl
  · unfold extractJsonText
    simp only [h1, h2, if_true, if_false, Bool.false_eq_true]
    cases braceSpan (jsTrim ((jsSplitOn ((jsSplitOn (jsTrim content) "```").getD 1 "")
        "```").headD "")) <;> rfl
  · unfold extractJsonText
    simp only [h1, h2, if_false, Bool.false_eq_true]
    cases braceSpan (jsTrim content) <;> rfl

/-- Enrichment changes only the three enrichment fields: the underlying
message is preserved. -/
lemma enrichOne_core (an : Email → AIResponse) (c : Cache) (e : Email) :
    (enrichOne an c e).1.core = e.core := by
  unfold enrichOne
  cases h : cacheGet c e.id <;> rfl

/-- The batch loop returns exactly the input messages, in order, with
only enrichment fields changed. -/
theorem processInPairs_map_core (an : Email → AIResponse) :
    ∀ (c : Cache) (l : List Email),
      ((processInPairs an c l).1).map Email.core = l.map Email.core
  | _, [] => by simp [processInPairs]
  | c, [e] => by simp [processInPairs, enrichOne_core]
  | c, e1 :: e2 :: rest => by
    have ih := processInPairs_map_core an (enrichOne an (enrichOne an c e1).2 e2).2 rest
    simp [processInPairs, enrichOne_core, ih]

/-- The output of the date sort is sorted. -/
lemma sortByDate_sorted (l : List Email) : SortedByDate (sortByDate l) :=
  List.sorted_insertionSort dateLe l

/-- The date sort permutes its input. -/
lemma sortByDate_perm (l : List Email) : (sortByDate l).Perm l :=
  List.perm_insertionSort dateLe l

/-- A `Map.set` for one identity does not disturb the entry of any
other identity. -/
lemma cacheGet_cacheSet_ne (c : Cache) (id1 id2 : String) (v : CacheEntry) (h : id1 ≠ id2) :
    cacheGet (cacheSet c id1 v) id2 = cacheGet c id2 := by
  unfold cacheSet cacheGet
  rw [List.find?_cons_of_neg]
  simp [h]

/-- Enriching one message preserves every entry already present in the
cache: the only write is guarded by a miss on its own identity. -/
lemma cacheGet_enrichOne (an : Email → AIResponse) (c : Cache) (e : Email) (id : String)
    (v : CacheEntry) (h : cacheGet c id = some v) :
    cacheGet (enrichOne an c e).2 id = some v := by
  unfold enrichOne
  cases hc : cacheGet c e.id with
  | some cached => simpa using h
  | none =>
    by_cases he : e.id = id
    · rw [he] at hc
      rw [h] at hc
      cases hc
    · show cacheGet (cacheSet c e.id _) id = some v
      rw [cacheGet_cacheSet_ne c e.id id _ he]
      exact h

/-- The whole batch loop preserves every entry already present in the
cache before it starts. -/
theorem processInPairs_get_mono (an : Email → AIResponse) :
    ∀ (c : Cache) (l : List Email) (id : String) (v : CacheEntry),
      cacheGet c id = some v → cacheGet (processInPairs an c l).2 id = some v
  | _, [], _, _, h => h
  | c, [e], id, v, h => by
    simpa [processInPairs] using cacheGet_enrichOne an c e id v h
  | c, e1 :: e2 :: rest, id, v, h => by
    have h1 := cacheGet_enrichOne an c e1 id v h
    have h2 := cacheGet_enrichOne an (enrichOne an c e1).2 e2 id v h1
    have ih := processInPairs_get_mono an (enrichOne an (enrichOne an c e1).2 e2).2 rest id v h2
    simpa [processInPairs] using ih

/-- Counterexample to C5 as stated: under the interleaving model the
claim itself invokes, two concurrent tasks for the same identity can
both observe a miss before either writes; the system then reaches a
state whose cache holds `entryA` for `"m"` and, continuing the same
execution, a state whose cache holds `entryB ≠ entryA` for `"m"` — the
entry is overwritten with a different value. -/
theorem cache_overwrite_interleaving_cex :
    Reaches ([], [TaskState.ready "m" entryA, TaskState.ready "m" entryB])
      ([("m", entryA)], [TaskState.finished, TaskState.pendingWrite "m" entryB]) ∧
    Reaches ([("m", entryA)], [TaskState.finished, TaskState.pendingWrite "m" entryB])
      ([("m", entryB), ("m", entryA)], [TaskState.finished, TaskState.finished]) ∧
    cacheGet [("m", entryA)] "m" = some entryA ∧
    cacheGet [("m", entryB), ("m", entryA)] "m" = some entryB ∧
    entryA ≠ entryB := by
  refine ⟨?_, ?_, rfl, rfl, by decide⟩
  · have s1 : GroupStep ([], [TaskState.ready "m" entryA, TaskState.ready "m" entryB])
        ([], [TaskState.pendingWrite "m" entryA, TaskState.ready "m" entryB]) :=
      GroupStep.checkMiss [] [TaskState.ready "m" entryA, TaskState.ready "m" entryB]
        0 "m" entryA rfl rfl
    have s2 : GroupStep ([], [TaskState.pendingWrite "m" entryA, TaskState.ready "m" entryB])
        ([], [TaskState.pendingWrite "m" entryA, TaskState.pendingWrite "m" entryB]) :=
      GroupStep.checkMiss [] [TaskState.pendingWrite "m" entryA, TaskState.ready "m" entryB]
        1 "m" entryB rfl rfl
    have s3 : GroupStep ([], [TaskState.pendingWrite "m" entryA, TaskState.pendingWrite "m" entryB])
        ([("m", entryA)], [TaskState.finished, TaskState.pendingWrite "m" entryB]) :=
      GroupStep.doWrite [] [TaskState.pendingWrite "m" entryA, TaskState.pendingWrite "m" entryB]
        0 "m" entryA rfl
    exact Relation.ReflTransGen.head s1 (Relation.ReflTransGen.head s2
      (Relation.ReflTransGen.single s3))
  · have s4 : GroupStep ([("m", entryA)], [TaskState.finished, TaskState.pendingWrite "m" entryB])
        ([("m", entryB), ("m", entryA)], [TaskState.finished, TaskState.finished]) :=
      GroupStep.doWrite [("m", entryA)] [TaskState.finished, TaskState.pendingWrite "m" entryB]
        1 "m" entryB rfl
    exact Relation.ReflTransGen.single s4

/-- C5 (amended): an entry present in the cache before an operation
begins is never overwritten by that operation — every write is guarded
by a miss observed at the task's own cache check, so each fetch,
progressive or delta call leaves existing entries untouched.  Only two
enrichments racing concurrently on the same identity, both missing
before either writes, can overwrite (see the counterexample). -/
theorem cache_write_once_sequential (an : Email → AIResponse) (c : Cache) (raw : List Email)
    (sinceDate : Option Int) (known : List String) (b : Nat) (id : String) (v : CacheEntry)
    (h : cacheGet c id = some v) :
    cacheGet (getEmailsResponse an c raw).2 id = some v ∧
    cacheGet (fetchProgressive an c raw b).2 id = some v ∧
    cacheGet (fetchNewEmails an c raw sinceDate known).2 id = some v := by
  refine ⟨?_, ?_, ?_⟩
  · unfold getEmailsResponse
    split
    · simpa using h
    · exact processInPairs_get_mono an c raw id v h
  · unfold fetchProgressive
    dsimp only
    repeat' split
    all_goals first
      | simpa using h
      | exact processInPairs_get_mono an c _ id v h
  · exact processInPairs_get_mono an c _ id v h

/-- Witness for C5 (amended) at a concrete pre-populated cache. -/
theorem cache_write_once_sequential_witness :
    cacheGet [("m", entryA)] "m" = some entryA ∧
    cacheGet (getEmailsResponse (fun _ => defaultAnalysis) [("m", entryA)] [mkMail 0]).2 "m"
      = some entryA ∧
    cacheGet (fetchProgressive (fun _ => defaultAnalysis) [("m", entryA)] [mkMail 0] 0).2 "m"
      = some entryA ∧
    cacheGet (fetchNewEmails (fun _ => defaultAnalysis) [("m", entryA)] [mkMail 0] none []).2 "m"
      = some entryA :=
  ⟨rfl,
   (cache_write_once_sequential (fun _ => defaultAnalysis) [("m", entryA)] [mkMail 0]
     none [] 0 "m" entryA rfl).1,
   (cache_write_once_sequential (fun _ => defaultAnalysis) [("m", entryA)] [mkMail 0]
     none [] 0 "m" entryA rfl).2.1,
   (cache_write_once_sequential (fun _ => defaultAnalysis) [("m", entryA)] [mkMail 0]
     none [] 0 "m" entryA rfl).2.2⟩

/-- C3: the enriched output of every endpoint — base fetch, progressive
paging, delta refresh — is sorted non-decreasing by receipt timestamp,
whatever the input order. -/
theorem endpoint_outputs_sorted (an : Email → AIResponse) (c1 c2 c3 : Cache)
    (raw : List Email) (sinceDate : Option Int) (known : List String) (b : Nat) :
    SortedByDate (getEmailsResponse an c1 raw).1.emails ∧
    SortedByDate (fetchProgressive an c2 raw b).1.emails ∧
    SortedByDate (fetchNewEmails an c3 raw sinceDate known).1.emails := by
  refine ⟨?_, ?_, ?_⟩
  · unfold getEmailsResponse
    split
    · exact List.sorted_nil
    · exact sortByDate_sorted _
  · unfold fetchProgressive
    dsimp only
    repeat' split
    all_goals first
      | exact List.sorted_nil
      | exact sortByDate_sorted _
  · exact sortByDate_sorted _

/-- C4: with a non-empty known-identity set, the delta new-message set
is exactly the retrieved messages whose identity is not known; in
particular, when every retrieved identity is known, the returned emails
list is empty. -/
theorem delta_refresh_known_ids (an : Email → AIResponse) (c : Cache) (raw : List Email)
    (sinceDate : Option Int) (known : List String) (hne : known.length > 0) :
    computeNewEmails raw sinceDate known = raw.filter (fun e => !(known.contains e.id)) ∧
    ((∀ e ∈ raw, known.contains e.id = true) →
      (fetchNewEmails an c raw sinceDate known).1.emails = []) := by
  have hc : computeNewEmails raw sinceDate known
      = raw.filter (fun e => !(known.contains e.id)) := by
    unfold computeNewEmails
    rw [if_pos hne]
  refine ⟨hc, fun hall => ?_⟩
  have hnil : computeNewEmails raw sinceDate known = [] := by
    rw [hc]
    refine List.filter_eq_nil_iff.mpr fun e he => ?_
    simpa using hall e he
  have hshape : (fetchNewEmails an c raw sinceDate known).1.emails
      = sortByDate (processInPairs an c (sortByDate (computeNewEmails raw sinceDate known))).1 :=
    rfl
  rw [hshape, hnil]
  rfl

/-- Witness for C4: a one-message window whose identity is known. -/
theorem delta_refresh_known_ids_witness :
    (["0"] : List String).length > 0 ∧
    (∀ e ∈ [mkMail 0], (["0"] : List String).contains e.id = true) ∧
    (fetchNewEmails (fun _ => defaultAnalysis) [] [mkMail 0] none ["0"]).1.emails = [] :=
  ⟨by decide, by decide,
   (delta_refresh_known_ids (fun _ => defaultAnalysis) [] [mkMail 0] none ["0"]
     (by decide)).2 (by decide)⟩

/-- Witness for C7 (amended) at a fenced payload. -/
theorem extract_policy_with_regex_witness :
    jsIncludes (jsTrim "```json \x7b2\x7d ```") "```json" = true ∧
    extractJsonText "```json \x7b2\x7d ```" =
      (braceSpan (jsTrim ((jsSplitOn ((jsSplitOn (jsTrim "```json \x7b2\x7d ```") "```json").getD 1 "")
          "```").headD ""))).getD
        (jsTrim ((jsSplitOn ((jsSplitOn (jsTrim "```json \x7b2\x7d ```") "```json").getD 1 "")
          "```").headD "")) :=
  ⟨by decide, (extract_policy_with_regex "```json \x7b2\x7d ```").1 (by decide)⟩

/-- Pointwise permutations lift to the concatenation over an index
range. -/
lemma flatMap_range_perm {α : Type} (n : Nat) (f g : Nat → List α)
    (h : ∀ b, b < n → (f b).Perm (g b)) :
    ((List.range n).flatMap f).Perm ((List.range n).flatMap g) := by
  induction n with
  | zero => simp
  | succ n ih =>
    rw [List.range_succ, List.flatMap_append, List.flatMap_append]
    exact (ih fun b hb => h b (Nat.lt_succ_of_lt hb)).append
      (by simpa using h n (Nat.lt_succ_self n))

/-- Concatenating the 4-element slices `[b*4, b*4+4)` for `b < n`
reassembles the first `n*4` elements. -/
lemma flatMap_range_chunks {α : Type} (n : Nat) (L : List α) :
    (List.range n).flatMap (fun b => (L.drop (b * 4)).take 4) = L.take (n * 4) := by
  induction n with
  | zero => simp
  | succ n ih =>
    rw [List.range_succ, List.flatMap_append, ih]
    simp only [List.flatMap_cons, List.flatMap_nil, List.append_nil]
    rw [show (n + 1) * 4 = n * 4 + 4 from by ring, List.take_add]

/-- For a 40-message window and `b < 10`, the progressive endpoint takes
its batch branch, on the slice `[b*4, b*4+4)`. -/
lemma fetchProgressive_batch (an : Email → AIResponse) (c : Cache) (mailbox : List Email)
    (b : Nat) (hlen : mailbox.length = 40) (hb : b < 10) :
    (fetchProgressive an c mailbox b).1 =
      ⟨true, sortByDate (processInPairs an c ((mailbox.drop (b * 4)).take 4)).1,
        (sortByDate (processInPairs an c ((mailbox.drop (b * 4)).take 4)).1).length,
        some (b + 1),
        decide (b * 4 + ((mailbox.drop (b * 4)).take 4).length ≥ 40),
        b * 4 + (sortByDate (processInPairs an c ((mailbox.drop (b * 4)).take 4)).1).length,
        40⟩ := by
  have htake : mailbox.take 40 = mailbox := by
    rw [← hlen]
    exact List.take_length mailbox
  unfold fetchProgressive
  dsimp only
  rw [htake, hlen, if_neg (by omega), if_neg (by omega)]

/-- C2: over a window of exactly 40 retrieved messages, the progressive
protocol answers batch responses for `batchNumber` 0 through 9 — each
carrying `batchNumber + 1` — with `isComplete` true exactly on step 9,
each batch sorted ascending by timestamp; and the concatenation of the
ten batches' emails is, up to the enrichment fields, a permutation of
the full 40-message window, duplicate-free whenever the window's
identities are. -/
theorem progressive_forty_protocol (an : Email → AIResponse) (caches : Nat → Cache)
    (mailbox : List Email) (hlen : mailbox.length = 40) :
    (∀ b, b < 10 →
      ((fetchProgressive an (caches b) mailbox b).1.batchNumber = some (b + 1) ∧
       ((fetchProgressive an (caches b) mailbox b).1.isComplete = true ↔ b = 9) ∧
       SortedByDate (fetchProgressive an (caches b) mailbox b).1.emails)) ∧
    (((List.range 10).flatMap fun b =>
        (fetchProgressive an (caches b) mailbox b).1.emails).map Email.core).Perm
      (mailbox.map Email.core) ∧
    ((mailbox.map Email.id).Nodup →
      (((List.range 10).flatMap fun b =>
          (fetchProgressive an (caches b) mailbox b).1.emails).map Email.id).Nodup) := by
  have hbatchlen : ∀ b, b < 10 → ((mailbox.drop (b * 4)).take 4).length = 4 := by
    intro b hb
    rw [List.length_take, List.length_drop, hlen]
    omega
  have hperm : ∀ b, b < 10 →
      (((fetchProgressive an (caches b) mailbox b).1.emails).map Email.core).Perm
        (((mailbox.drop (b * 4)).take 4).map Email.core) := by
    intro b hb
    rw [fetchProgressive_batch an (caches b) mailbox b hlen hb]
    have h1 := (sortByDate_perm
      (processInPairs an (caches b) ((mailbox.drop (b * 4)).take 4)).1).map Email.core
    rw [processInPairs_map_core an] at h1
    exact h1
  have hbig : (((List.range 10).flatMap fun b =>
      (fetchProgressive an (caches b) mailbox b).1.emails).map Email.core).Perm
      (mailbox.map Email.core) := by
    rw [List.map_flatMap]
    have h2 := flatMap_range_perm 10 _ _ hperm
    refine h2.trans ?_
    have h3 : ((List.range 10).flatMap fun b => ((mailbox.drop (b * 4)).take 4).map Email.core)
        = (List.range 10).flatMap fun b => ((mailbox.map Email.core).drop (b * 4)).take 4 := by
      simp [List.map_take, List.map_drop]
    rw [h3, flatMap_range_chunks]
    have hml : (mailbox.map Email.core).length = 40 := by
      rw [List.length_map, hlen]
    rw [List.take_of_length_le (by omega)]
  refine ⟨fun b hb => ?_, hbig, fun hnd => ?_⟩
  · rw [fetchProgressive_batch an (caches b) mailbox b hlen hb]
    refine ⟨rfl, ?_, sortByDate_sorted _⟩
    show decide (b * 4 + ((mailbox.drop (b * 4)).take 4).length ≥ 40) = true ↔ b = 9
    rw [hbatchlen b hb]
    simp only [decide_eq_true_eq]
    omega
  · have hids := hbig.map Email.id
    rw [List.map_map, List.map_map] at hids
    have hfun : Email.id ∘ Email.core = Email.id := funext fun e => rfl
    rw [hfun] at hids
    exact hids.nodup_iff.mpr hnd

/-- Witness for C2 at a concrete 40-message window with distinct
identities, the trivial analysis oracle and empty caches. -/
theorem progressive_forty_protocol_witness :
    mailbox40.length = 40 ∧
    ((∀ b, b < 10 →
      ((fetchProgressive (fun _ => defaultAnalysis) [] mailbox40 b).1.batchNumber = some (b + 1) ∧
       ((fetchProgressive (fun _ => defaultAnalysis) [] mailbox40 b).1.isComplete = true ↔ b = 9) ∧
       SortedByDate (fetchProgressive (fun _ => defaultAnalysis) [] mailbox40 b).1.emails)) ∧
    (((List.range 10).flatMap fun b =>
        (fetchProgressive (fun _ => defaultAnalysis) [] mailbox40 b).1.emails).map
        Email.core).Perm (mailbox40.map Email.core) ∧
    ((mailbox40.map Email.id).Nodup →
      (((List.range 10).flatMap fun b =>
          (fetchProgressive (fun _ => defaultAnalysis) [] mailbox40 b).1.emails).map
          Email.id).Nodup)) :=
  ⟨by decide,
   progressive_forty_protocol (fun _ => defaultAnalysis) (fun _ => []) mailbox40 (by decide)⟩

end Mailauto
